import Mathlib

/-!
# EspSaveCrashSpiffs: crash-log naming, rotation and the crash-time writer

A shallow embedding of `src/EspSaveCrashSpiffs.cpp`.  Arduino `String`s and C
strings are lists of characters (the characters before the terminating NUL);
`uint32_t`, `uint16_t`, `int` and `long` values are `Nat`/`Int` with explicit
reductions modulo `2^32` / `2^16` where the C code wraps.  The target is the
ESP8266 (ILP32): `int` and `long` are 32 bits wide.
-/

namespace EspSaveCrash

/-- Contents of an Arduino `String` or of a NUL-terminated C string. -/
abbrev Str := List Char

/-! ## Library primitives used by the source (Arduino `String`, libc) -/

/-- `String::startsWith(const String&)`. -/
def startsWith (s s2 : Str) : Bool :=
  if s.length < s2.length then false else s.take s2.length == s2

/-- `String::endsWith(const String&)`. -/
def endsWith (s s2 : Str) : Bool :=
  if s.length < s2.length then false else s.drop (s.length - s2.length) == s2

/-- `String::substring(left, right)`: the bounds are swapped when `left > right`,
an out-of-range `left` gives the empty string and `right` is clipped to the length. -/
def substring (s : Str) (left right : Nat) : Str :=
  let l := if left > right then right else left
  let r := if left > right then left else right
  if l ≥ s.length then []
  else (s.drop l).take ((if r > s.length then s.length else r) - l)

/-- Scan of `String::lastIndexOf(char)`: index of the last occurrence seen so far. -/
def lastIndexOfFrom (c : Char) : Str → Nat → Int → Int
  | [], _, acc => acc
  | x :: xs, i, acc => lastIndexOfFrom c xs (i + 1) (if x = c then (i : Int) else acc)

/-- `String::lastIndexOf(char)`: `-1` when the character does not occur. -/
def lastIndexOf (s : Str) (c : Char) : Int :=
  lastIndexOfFrom c s 0 (-1)

/-- C `isspace` in the "C" locale: space, `\t`, `\n`, `\v`, `\f`, `\r`. -/
def isspace (c : Char) : Bool :=
  c.toNat = 32 || (9 ≤ c.toNat && c.toNat ≤ 13)

/-- C `isdigit`. -/
def isdigit (c : Char) : Bool :=
  48 ≤ c.toNat && c.toNat ≤ 57

/-- `LONG_MAX` of a 32-bit `long`. -/
def LONG_MAX : Int := 2147483647

/-- `LONG_MIN` of a 32-bit `long`. -/
def LONG_MIN : Int := -2147483648

/-- Digit loop of `strtol` in base 10: the value of the longest run of leading digits. -/
def strtolDigits : Str → Nat → Nat
  | [], acc => acc
  | c :: cs, acc => if isdigit c then strtolDigits cs (acc * 10 + (c.toNat - 48)) else acc

/-- `strtol(s, nullptr, 10)` with a 32-bit `long`: skips leading white space, takes an
optional sign, converts the longest run of digits (0 when there is none) and
returns `LONG_MAX` / `LONG_MIN` when the value is out of range. -/
def strtol (s : Str) : Int :=
  match s.dropWhile isspace with
  | [] => 0
  | c :: t =>
    if c = '-' then max LONG_MIN (-((strtolDigits t 0 : Nat) : Int))
    else if c = '+' then min LONG_MAX ((strtolDigits t 0 : Nat) : Int)
    else min LONG_MAX ((strtolDigits (c :: t) 0 : Nat) : Int)

/-- Conversion of an `int` to `uint32_t`. -/
def toUint32 (v : Int) : Nat := (v % 4294967296).toNat

/-- `String(uint32_t)`: the decimal digits of the number. -/
def decimal (n : Nat) : Str := Nat.toDigits 10 n

/-! ## Naming configuration -/

/-- The members `_fileDirectory`, `_filePrefix`, `_fileSuffix`. -/
structure Config where
  _fileDirectory : Str
  _filePrefix : Str
  _fileSuffix : Str
deriving DecidableEq

/-- `DEFAULT_CRASHFILEPREFIX`. -/
def DEFAULT_CRASHFILEPREFIX : Str := "crashLog-".toList

/-- `DEFAULT_CRASHFILESUFFIX`. -/
def DEFAULT_CRASHFILESUFFIX : Str := ".log".toList

/-- Configuration set up by the constructor: empty arguments take the defaults. -/
def constructorConfig (directory filePre fileSuf : Str) : Config :=
  { _fileDirectory := if directory.isEmpty then "/".toList else directory
    _filePrefix := if filePre.isEmpty then DEFAULT_CRASHFILEPREFIX else filePre
    _fileSuffix := if fileSuf.isEmpty then DEFAULT_CRASHFILESUFFIX else fileSuf }

/-- Configuration of the global instance `SaveCrashSpiffs` (all arguments defaulted). -/
def defaultConfig : Config := constructorConfig [] [] []

/-- `EspSaveCrashSpiffs::_getNumberOfNameMatch`. -/
def _getNumberOfNameMatch (cfg : Config) (fileName : Str) : Nat :=
  if !startsWith fileName cfg._filePrefix then 0
  else if !endsWith fileName cfg._fileSuffix then 0
  else
    let incrementalPart :=
      substring fileName cfg._filePrefix.length (fileName.length - cfg._fileSuffix.length)
    let fileNumber : Int := strtol incrementalPart
    toUint32 fileNumber

/-- `EspSaveCrashSpiffs::_makeFileName`: `strcpy` of the directory, then `strcat` of the
prefix, the decimal number and the suffix. -/
def _makeFileName (cfg : Config) (fileNumber : Nat) : Str :=
  cfg._fileDirectory ++ cfg._filePrefix ++ decimal fileNumber ++ cfg._fileSuffix

/-! ## Directory scan -/

/-- One step of a `Dir` enumeration: what `isFile()` and `fileName()` report. -/
structure DirEntry where
  isFile : Bool
  fileName : Str
deriving DecidableEq

/-- The bare name the scans match: `fileName().substring(namePos >= 0 ? namePos + 1 : 0)`
with `namePos = fileName().lastIndexOf('/')`. -/
def bareName (reported : Str) : Str :=
  let namePos := lastIndexOf reported '/'
  substring reported (if namePos ≥ 0 then (namePos + 1).toNat else 0) reported.length

/-- Body of the `while (crashLogDirectory.next())` loop of `_getNextFileName`; the state
is `(currentLogNumber, nextFileName)`. -/
def scanStep (cfg : Config) (st : Nat × Str) (e : DirEntry) : Nat × Str :=
  if !e.isFile then st
  else
    let fileNumber := _getNumberOfNameMatch cfg (bareName e.fileName)
    if fileNumber = 0 then st
    else if st.1 < fileNumber then (fileNumber, e.fileName)
    else st

/-- The enumeration loop of `_getNextFileName`, started from `currentLogNumber = 0` and an
empty `nextFileName`. -/
def scanDir (cfg : Config) (listing : List DirEntry) : Nat × Str :=
  listing.foldl (scanStep cfg) (0, [])

/-- `EspSaveCrashSpiffs::_getNextFileName`; the result is the string left in the output
buffer.  `currentLogNumber + 1` is `uint32_t` arithmetic. -/
def _getNextFileName (cfg : Config) (listing : List DirEntry) (findNextName : Bool) : Str :=
  let st := scanDir cfg listing
  if !findNextName && st.2 ≠ [] then st.2
  else _makeFileName cfg ((st.1 + 1) % 4294967296)

/-- `EspSaveCrashSpiffs::count`. -/
def count (cfg : Config) (listing : List DirEntry) : Nat :=
  listing.foldl (fun filesCount e =>
    if !e.isFile then filesCount
    else if _getNumberOfNameMatch cfg (bareName e.fileName) ≠ 0 then (filesCount + 1) % 4294967296
    else filesCount) 0

/-- `EspSaveCrashSpiffs::iterateCrashLogFiles`: the calls made to the callback, in order. -/
def iterateCrashLogFiles (cfg : Config) (listing : List DirEntry) : List (Nat × Str) :=
  listing.foldl (fun calls e =>
    if !e.isFile then calls
    else
      let fileNumber := _getNumberOfNameMatch cfg (bareName e.fileName)
      if fileNumber = 0 then calls else calls ++ [(fileNumber, e.fileName)]) []

/-! ## Filesystem collaborator and the accessor operations -/

/-- Modelled from the spec: an entry of the filesystem collaborator (`FS.h` of the Arduino
core is outside the repository): a path, whether it is a regular file, its bytes. -/
structure FsEntry where
  path : Str
  isFile : Bool
  content : Str
deriving DecidableEq

/-- Modelled from the spec: the filesystem collaborator of section 6, a flat store of
entries kept in enumeration order, with the result of `begin()`. -/
structure FS where
  beginOk : Bool
  entries : List FsEntry
deriving DecidableEq

/-- Modelled from the spec: `FS::exists(path)`. -/
def FS.pathExists (fs : FS) (path : Str) : Bool :=
  fs.entries.any (fun e => e.path == path)

/-- Modelled from the spec: `FS::remove(path)`: deletes the regular file stored under
`path`; fails when there is none. -/
def FS.remove (fs : FS) (path : Str) : Bool × FS :=
  if fs.entries.any (fun e => e.path == path && e.isFile) then
    (true, { fs with entries := fs.entries.filter (fun e => !(e.path == path)) })
  else (false, fs)

/-- Modelled from the spec: `FS::openDir(directory)`: the entries whose path starts with
the directory name, in stored order, reported with their full path. -/
def FS.openDir (fs : FS) (directory : Str) : List DirEntry :=
  (fs.entries.filter (fun e => startsWith e.path directory)).map
    (fun e => { isFile := e.isFile, fileName := e.path })

/-- Modelled from the spec: `FS::open(path, "r")`: the regular file stored under `path`. -/
def FS.openRead (fs : FS) (path : Str) : Option FsEntry :=
  fs.entries.find? (fun e => e.path == path && e.isFile)

/-- The object state: the naming members and the cached paths `_crashLogFile` and
`_lastLogFile`. -/
structure EspSaveCrashSpiffs where
  cfg : Config
  _crashLogFile : Str
  _lastLogFile : Str
deriving DecidableEq

/-- `EspSaveCrashSpiffs::_renewLogFiles`. -/
def _renewLogFiles (self : EspSaveCrashSpiffs) (fs : FS) : EspSaveCrashSpiffs :=
  { self with
    _crashLogFile := _getNextFileName self.cfg (fs.openDir self.cfg._fileDirectory) true
    _lastLogFile := _getNextFileName self.cfg (fs.openDir self.cfg._fileDirectory) false }

/-- `EspSaveCrashSpiffs::setLogFileNameParams`. -/
def setLogFileNameParams (self : EspSaveCrashSpiffs) (fs : FS)
    (directory filePre fileSuf : Str) : EspSaveCrashSpiffs :=
  _renewLogFiles { self with cfg := ⟨directory, filePre, fileSuf⟩ } fs

/-- The path `removeFile`, `readFile` and `print` build from a file number. -/
def targetPath (self : EspSaveCrashSpiffs) (fileNumber : Nat) : Str :=
  if fileNumber = 0 then self._lastLogFile else _makeFileName self.cfg fileNumber

/-- `EspSaveCrashSpiffs::removeFile`: the return value, the object and the filesystem
afterwards. -/
def removeFile (self : EspSaveCrashSpiffs) (fs : FS) (fileNumber : Nat) :
    Bool × EspSaveCrashSpiffs × FS :=
  let fileName := targetPath self fileNumber
  if fs.pathExists fileName then
    let r := fs.remove fileName
    (r.1, _renewLogFiles self r.2, r.2)
  else (false, self, fs)

/-- `EspSaveCrashSpiffs::_checkFile`; `openMode = none` is the null pointer. -/
def _checkFile (fs : FS) (theFileName : Str) (openMode : Option Str) : Bool :=
  if !fs.beginOk then false
  else if !fs.pathExists theFileName then false
  else
    match openMode with
    | some _ => if (fs.openRead theFileName).isNone then false else true
    | none => true

/-- What `readFile` did: its return value, the length it passed to `readBytes`, and the
bytes `readBytes` stored from the start of the caller's buffer. -/
structure ReadOutcome where
  ok : Bool
  requested : Nat
  stored : Str
deriving DecidableEq

/-- `EspSaveCrashSpiffs::readFile(const char*, char*, size_t)`.  `readBytes(buffer, n)`
stores the first `n` bytes of the file, fewer when the file is shorter; a `File` that
failed to open has size 0 and stores nothing. -/
def readFile (fs : FS) (fileName : Str) (bufferSize : Nat) : ReadOutcome :=
  if !_checkFile fs fileName (some "r".toList) then ⟨false, 0, []⟩
  else
    match fs.openRead fileName with
    | none => ⟨true, max 0 bufferSize, []⟩
    | some theFile =>
      let n := max theFile.content.length bufferSize
      ⟨true, n, theFile.content.take n⟩

/-! ## Crash-time writer -/

/-- The fields of `struct rst_info` the callback prints. -/
structure rst_info where
  reason : Nat
  exccause : Nat
  epc1 : Nat
  epc2 : Nat
  epc3 : Nat
  excvaddr : Nat
  depc : Nat
deriving DecidableEq

/-- Conversion `%d` of `sprintf` applied to a 32-bit argument (read as `int`). -/
def fmt_d (v : Nat) : Str :=
  if v % 4294967296 < 2147483648 then decimal (v % 4294967296)
  else '-' :: decimal (4294967296 - v % 4294967296)

/-- Conversion `%08x` of `sprintf` applied to a 32-bit argument. -/
def fmt_08x (v : Nat) : Str :=
  let ds := Nat.toDigits 16 (v % 4294967296)
  List.replicate (8 - ds.length) '0' ++ ds

/-- First `sprintf_P` of the callback: crash time, restart reason, exception cause. -/
def headerText (crashTime : Nat) (info : rst_info) : Str :=
  "Crashed at ".toList ++ fmt_d crashTime ++ " ms\nRestart reason: ".toList ++
    fmt_d info.reason ++ "\nException cause: ".toList ++ fmt_d info.exccause ++ "\n".toList

/-- Second `sprintf_P` of the callback: the five registers and the start marker. -/
def registerText (info : rst_info) : Str :=
  "epc1=0x".toList ++ fmt_08x info.epc1 ++ " epc2=0x".toList ++ fmt_08x info.epc2 ++
    " epc3=0x".toList ++ fmt_08x info.epc3 ++ " excvaddr=0x".toList ++ fmt_08x info.excvaddr ++
    " depc=0x".toList ++ fmt_08x info.depc ++ "\n>>>stack>>>\n".toList

/-- The word `*(uint32_t*)(stack + i + j * 4)` printed with `"%08x "`. -/
def stackWord (stack : Nat) (mem : Nat → Nat) (i j : Nat) : Str :=
  fmt_08x (mem ((stack + i + j * 4) % 4294967296)) ++ " ".toList

/-- Size of `char tmpBuffer[100]`, the buffer every `sprintf_P` of the callback fills. -/
def tmpBufferSize : Nat := 100

/-- The address field `sprintf_P(tmpBuffer, "%08x: ", stack + i)` at the start of a line. -/
def stackAddress (stack i : Nat) : Str :=
  fmt_08x (stack + i) ++ ": ".toList

/-- Body of the outer `for` loop: the address, four words, a line break. -/
def stackLine (stack : Nat) (mem : Nat → Nat) (i : Nat) : Str :=
  fmt_08x (stack + i) ++ ": ".toList ++ stackWord stack mem i 0 ++ stackWord stack mem i 1 ++
    stackWord stack mem i 2 ++ stackWord stack mem i 3 ++ "\n".toList

/-- The loop `for (uint16_t i = 0; i < stackLength; i += 0x10)` from counter value `i`:
`some text` when the loop exits within `fuel` iterations, `none` when it is still running. -/
def stackDumpLoop (stack stackLength : Nat) (mem : Nat → Nat) : Nat → Nat → Option Str
  | 0, _ => none
  | fuel + 1, i =>
    if i < stackLength then
      match stackDumpLoop stack stackLength mem fuel ((i + 0x10) % 65536) with
      | none => none
      | some rest => some (stackLine stack mem i ++ rest)
    else some []

/-- `uint16_t stackLength = stack_end - stack`. -/
def stackLengthOf (stack stack_end : Nat) : Nat :=
  ((stack_end % 4294967296 + 4294967296 - stack % 4294967296) % 4294967296) % 65536

/-- `custom_crash_callback`: `openAppend` and `openWrite` are the results of the two
`fs.open` calls, `mem` is the memory the stack pointer reads.  The result is `some text`
with the text passed to the `write` calls of the crash file, in order, when the callback
returns within `fuel` iterations of the dump loop (nothing is written when neither open
succeeds), and `none` when the loop is still running. -/
def custom_crash_callback (openAppend openWrite : Bool) (crashTime : Nat) (info : rst_info)
    (stack stack_end : Nat) (mem : Nat → Nat) (fuel : Nat) : Option Str :=
  if !openAppend && !openWrite then some []
  else
    match stackDumpLoop stack (stackLengthOf stack stack_end) mem fuel 0 with
    | none => none
    | some dump =>
      some (headerText crashTime info ++ registerText info ++ dump ++ "<<<stack<<<\n\n".toList)

/-! ## Specification-side notions -/

/-- The file number a scan assigns to a listing entry; 0 for an entry it skips (not a
regular file, or a bare name `_getNumberOfNameMatch` maps to 0). -/
def entryNumber (cfg : Config) (e : DirEntry) : Nat :=
  if e.isFile then _getNumberOfNameMatch cfg (bareName e.fileName) else 0

/-- The largest file number assigned in a listing; 0 when no entry matches. -/
def maxNumber (cfg : Config) (listing : List DirEntry) : Nat :=
  (listing.map (entryNumber cfg)).foldr max 0

/-- The decimal value of a string of digits, most significant digit first. -/
def decimalValue (d : Str) : Nat :=
  d.foldl (fun a c => a * 10 + (c.toNat - 48)) 0

/-- The `k` least significant hexadecimal digits of `n`, most significant first. -/
def hexDigits : Nat → Nat → Str
  | 0, _ => []
  | k + 1, n => hexDigits k (n / 16) ++ [Nat.digitChar (n % 16)]

/-- Line `k` of a stack dump as the specification describes it: the 8-hex-digit address
`stack + 16 * k`, a colon, and the four 8-hex-digit words read at that address and at
the next three word addresses, each followed by a blank, then a line break. -/
def dumpLine (stack : Nat) (mem : Nat → Nat) (k : Nat) : Str :=
  hexDigits 8 (stack + 16 * k) ++ ": ".toList ++
    hexDigits 8 (mem ((stack + 16 * k) % 4294967296)) ++ " ".toList ++
    hexDigits 8 (mem ((stack + 16 * k + 4) % 4294967296)) ++ " ".toList ++
    hexDigits 8 (mem ((stack + 16 * k + 8) % 4294967296)) ++ " ".toList ++
    hexDigits 8 (mem ((stack + 16 * k + 12) % 4294967296)) ++ " ".toList ++ "\n".toList

/-- What the enumeration loop has established after a listing: the number it holds bounds
every assigned number, the name buffer is empty while the number is 0, and otherwise the
buffer holds the name of the first entry that carries the number. -/
structure ScanInv (cfg : Config) (l : List DirEntry) (st : Nat × Str) : Prop where
  ub : ∀ e ∈ l, entryNumber cfg e ≤ st.1
  zero : st.1 = 0 → st.2 = []
  pos : st.1 ≠ 0 → ∃ pre e post, l = pre ++ e :: post ∧ entryNumber cfg e = st.1 ∧
    st.2 = e.fileName ∧ ∀ x ∈ pre, entryNumber cfg x < st.1

/-- The shape of a text from which `strtol` reads a number: white space `w`, an optional
sign `sgn`, a non-empty run of decimal digits `d`, and a rest `r` whose first character,
if there is one, is not a digit. -/
structure NumberText (w sgn d r : Str) : Prop where
  space : ∀ c ∈ w, isspace c = true
  sign : sgn = [] ∨ sgn = ['+'] ∨ sgn = ['-']
  digits : ∀ c ∈ d, isdigit c = true
  nonempty : d ≠ []
  rest : ∀ c ∈ r.take 1, isdigit c = false

/-! ## Example inputs -/

/-- A filesystem holding `/crashLog-7.log` and `/crashLog-07.log`. -/
def twoSevens : FS :=
  ⟨true, [⟨"/crashLog-7.log".toList, true, []⟩, ⟨"/crashLog-07.log".toList, true, []⟩]⟩

/-- The object constructed with default arguments over a filesystem. -/
def constructed (fs : FS) : EspSaveCrashSpiffs :=
  setLogFileNameParams ⟨defaultConfig, [], []⟩ fs defaultConfig._fileDirectory
    defaultConfig._filePrefix defaultConfig._fileSuffix

/-- A memory in which every word reads as its own address. -/
def addressMemory : Nat → Nat := fun a => a

/-! ## The directory scan -/

theorem toUint32_lt (v : Int) : toUint32 v < 4294967296 := by
  unfold toUint32
  have h1 : 0 ≤ v % 4294967296 := Int.emod_nonneg _ (by norm_num)
  have h2 : v % 4294967296 < 4294967296 := Int.emod_lt_of_pos _ (by norm_num)
  omega

theorem getNumberOfNameMatch_lt (cfg : Config) (name : Str) :
    _getNumberOfNameMatch cfg name < 4294967296 := by
  unfold _getNumberOfNameMatch
  split
  · norm_num
  · split
    · norm_num
    · exact toUint32_lt _

theorem getNumberOfNameMatch_nil (cfg : Config) : _getNumberOfNameMatch cfg [] = 0 := by
  unfold _getNumberOfNameMatch
  split
  · rfl
  · split
    · rfl
    · simp [substring, strtol, toUint32]

theorem bareName_nil : bareName [] = [] := by
  simp [bareName, substring]

theorem entryNumber_lt (cfg : Config) (e : DirEntry) : entryNumber cfg e < 4294967296 := by
  unfold entryNumber
  split
  · exact getNumberOfNameMatch_lt _ _
  · norm_num

theorem fileName_ne_nil_of_entryNumber (cfg : Config) (e : DirEntry)
    (h : entryNumber cfg e ≠ 0) : e.fileName ≠ [] := by
  intro hnil
  apply h
  unfold entryNumber
  rw [hnil, bareName_nil, getNumberOfNameMatch_nil]
  simp

theorem scanStep_eq (cfg : Config) (st : Nat × Str) (e : DirEntry) :
    scanStep cfg st e =
      if entryNumber cfg e = 0 then st
      else if st.1 < entryNumber cfg e then (entryNumber cfg e, e.fileName) else st := by
  unfold scanStep entryNumber
  cases e.isFile <;> simp

theorem scanInv_step (cfg : Config) (l : List DirEntry) (st : Nat × Str) (e : DirEntry)
    (inv : ScanInv cfg l st) : ScanInv cfg (l ++ [e]) (scanStep cfg st e) := by
  rw [scanStep_eq]
  by_cases h0 : entryNumber cfg e = 0
  · rw [if_pos h0]
    refine ⟨?_, inv.zero, ?_⟩
    · intro x hx
      rcases List.mem_append.1 hx with hx | hx
      · exact inv.ub x hx
      · rw [List.mem_singleton.1 hx, h0]; exact Nat.zero_le _
    · intro hne
      obtain ⟨pre, y, post, hl, hy, hn, hpre⟩ := inv.pos hne
      exact ⟨pre, y, post ++ [e], by rw [hl]; simp, hy, hn, hpre⟩
  · rw [if_neg h0]
    by_cases hlt : st.1 < entryNumber cfg e
    · rw [if_pos hlt]
      refine ⟨?_, fun h => absurd h h0, fun _ => ⟨l, e, [], rfl, rfl, rfl, ?_⟩⟩
      · intro x hx
        rcases List.mem_append.1 hx with hx | hx
        · exact le_of_lt (lt_of_le_of_lt (inv.ub x hx) hlt)
        · rw [List.mem_singleton.1 hx]
      · intro x hx
        exact lt_of_le_of_lt (inv.ub x hx) hlt
    · rw [if_neg hlt]
      refine ⟨?_, inv.zero, ?_⟩
      · intro x hx
        rcases List.mem_append.1 hx with hx | hx
        · exact inv.ub x hx
        · rw [List.mem_singleton.1 hx]; exact Nat.le_of_not_lt hlt
      · intro hne
        obtain ⟨pre, y, post, hl, hy, hn, hpre⟩ := inv.pos hne
        exact ⟨pre, y, post ++ [e], by rw [hl]; simp, hy, hn, hpre⟩

theorem scanInv_scanDir (cfg : Config) (l : List DirEntry) : ScanInv cfg l (scanDir cfg l) := by
  induction l using List.reverseRecOn with
  | nil => exact ⟨by simp, fun _ => rfl, fun h => absurd rfl h⟩
  | append_singleton l e ih =>
    have h : scanDir cfg (l ++ [e]) = scanStep cfg (scanDir cfg l) e := by
      simp [scanDir, List.foldl_append]
    rw [h]
    exact scanInv_step cfg l _ e ih

theorem le_maxNumber (cfg : Config) (l : List DirEntry) :
    ∀ e ∈ l, entryNumber cfg e ≤ maxNumber cfg l := by
  induction l with
  | nil => simp
  | cons a l ih =>
    intro e he
    have hm : maxNumber cfg (a :: l) = max (entryNumber cfg a) (maxNumber cfg l) := rfl
    rw [hm]
    rcases List.mem_cons.1 he with h | h
    · rw [h]; exact le_max_left _ _
    · exact le_trans (ih e h) (le_max_right _ _)

theorem maxNumber_attained (cfg : Config) (l : List DirEntry) :
    maxNumber cfg l = 0 ∨ ∃ e ∈ l, entryNumber cfg e = maxNumber cfg l := by
  induction l with
  | nil => left; rfl
  | cons a l ih =>
    have hm : maxNumber cfg (a :: l) = max (entryNumber cfg a) (maxNumber cfg l) := rfl
    rcases le_total (entryNumber cfg a) (maxNumber cfg l) with h | h
    · rw [hm, max_eq_right h]
      rcases ih with h0 | ⟨e, he, hn⟩
      · left; exact h0
      · right; exact ⟨e, List.mem_cons_of_mem _ he, hn⟩
    · rw [hm, max_eq_left h]
      right; exact ⟨a, List.mem_cons_self _ _, rfl⟩

/-- The number the enumeration loop ends with is the largest assigned number. -/
theorem scanDir_fst (cfg : Config) (l : List DirEntry) :
    (scanDir cfg l).1 = maxNumber cfg l := by
  have inv := scanInv_scanDir cfg l
  apply le_antisymm
  · by_cases h0 : (scanDir cfg l).1 = 0
    · rw [h0]; exact Nat.zero_le _
    · obtain ⟨pre, e, post, hl, he, _, _⟩ := inv.pos h0
      rw [← he]
      apply le_maxNumber
      rw [hl]; simp
  · rcases maxNumber_attained cfg l with h | ⟨e, he, hn⟩
    · rw [h]; exact Nat.zero_le _
    · rw [← hn]; exact inv.ub e he

/-- With `findNextName = true` the path is built from the largest assigned number plus
one, for every listing whose largest number is below `2^32 - 1`. -/
theorem getNextFileName_next_of_lt (cfg : Config) (listing : List DirEntry)
    (h : maxNumber cfg listing < 4294967295) :
    _getNextFileName cfg listing true =
      cfg._fileDirectory ++ cfg._filePrefix ++ decimal (maxNumber cfg listing + 1) ++
        cfg._fileSuffix := by
  have hmod : (maxNumber cfg listing + 1) % 4294967296 = maxNumber cfg listing + 1 :=
    Nat.mod_eq_of_lt (by omega)
  simp [_getNextFileName, scanDir_fst, hmod, _makeFileName]

/-- C1, evaluated where it fails: a listing whose only file is `/crashLog--1.log` carries
the number 4294967295, and the next path is built from `0`, not from 4294967296. -/
theorem next_path_wraps_to_zero :
    maxNumber defaultConfig [⟨true, "/crashLog--1.log".toList⟩] = 4294967295 ∧
    _getNextFileName defaultConfig [⟨true, "/crashLog--1.log".toList⟩] true =
      "/crashLog-0.log".toList ∧
    _getNextFileName defaultConfig [⟨true, "/crashLog--1.log".toList⟩] true ≠
      defaultConfig._fileDirectory ++ defaultConfig._filePrefix ++
        decimal (maxNumber defaultConfig [⟨true, "/crashLog--1.log".toList⟩] + 1) ++
        defaultConfig._fileSuffix := by
  decide

/-- The two scenarios of the specification: an empty directory gives `/crashLog-1.log`,
a directory holding `crashLog-3.log` and `crashLog-7.log` gives `/crashLog-8.log`. -/
theorem next_path_scenarios :
    _getNextFileName defaultConfig [] true = "/crashLog-1.log".toList ∧
    _getNextFileName defaultConfig
      [⟨true, "/crashLog-3.log".toList⟩, ⟨true, "/crashLog-7.log".toList⟩] true =
      "/crashLog-8.log".toList := by
  decide

/-- C2: with `findNextName = false`, when some entry matches, the result is the reported
name of a regular-file entry of the listing whose number is non-zero and is the largest
number assigned in the listing; when no entry matches, the result is the fresh path
directory + prefix + "1" + suffix. -/
theorem getNextFileName_last (cfg : Config) (listing : List DirEntry) :
    ((∃ e ∈ listing, entryNumber cfg e ≠ 0) →
      ∃ e ∈ listing, e.isFile = true ∧ _getNextFileName cfg listing false = e.fileName ∧
        _getNumberOfNameMatch cfg (bareName e.fileName) ≠ 0 ∧
        _getNumberOfNameMatch cfg (bareName e.fileName) = maxNumber cfg listing ∧
        ∀ x ∈ listing, entryNumber cfg x ≤ _getNumberOfNameMatch cfg (bareName e.fileName)) ∧
    ((∀ e ∈ listing, entryNumber cfg e = 0) →
      _getNextFileName cfg listing false =
        cfg._fileDirectory ++ cfg._filePrefix ++ "1".toList ++ cfg._fileSuffix) := by
  have inv := scanInv_scanDir cfg listing
  constructor
  · rintro ⟨e0, he0, hne0⟩
    have hpos : (scanDir cfg listing).1 ≠ 0 := by
      intro hz
      have := inv.ub e0 he0
      omega
    obtain ⟨pre, e, post, hl, he, hname, _⟩ := inv.pos hpos
    have hen : entryNumber cfg e ≠ 0 := by rw [he]; exact hpos
    have hfile : e.isFile = true := by
      by_contra hf
      apply hen
      simp [entryNumber, hf]
    have hnum : entryNumber cfg e = _getNumberOfNameMatch cfg (bareName e.fileName) := by
      simp [entryNumber, hfile]
    have hmem : e ∈ listing := by rw [hl]; simp
    refine ⟨e, hmem, hfile, ?_, ?_, ?_, ?_⟩
    · have hnn : (scanDir cfg listing).2 ≠ [] := by
        rw [hname]; exact fileName_ne_nil_of_entryNumber cfg e hen
      unfold _getNextFileName
      simp only [Bool.not_false, Bool.true_and, decide_eq_true_eq]
      rw [if_pos hnn, hname]
    · rw [← hnum]; exact hen
    · rw [← hnum, he, scanDir_fst]
    · intro x hx
      rw [← hnum, he]
      exact inv.ub x hx
  · intro hall
    have hz : (scanDir cfg listing).1 = 0 := by
      rw [scanDir_fst]
      rcases maxNumber_attained cfg listing with h | ⟨e, he, hn⟩
      · exact h
      · rw [← hn]; exact hall e he
    have hnil : (scanDir cfg listing).2 = [] := inv.zero hz
    simp [_getNextFileName, hnil, hz, _makeFileName, decimal]
    rfl

/-- Witness of C2: both cases at concrete listings under the default configuration. -/
theorem getNextFileName_last_witness :
    (∃ e ∈ [(⟨true, "/crashLog-3.log".toList⟩ : DirEntry), ⟨true, "/crashLog-7.log".toList⟩],
      e.isFile = true ∧
      _getNextFileName defaultConfig
        [⟨true, "/crashLog-3.log".toList⟩, ⟨true, "/crashLog-7.log".toList⟩] false =
        e.fileName ∧
      _getNumberOfNameMatch defaultConfig (bareName e.fileName) ≠ 0 ∧
      _getNumberOfNameMatch defaultConfig (bareName e.fileName) =
        maxNumber defaultConfig
          [⟨true, "/crashLog-3.log".toList⟩, ⟨true, "/crashLog-7.log".toList⟩] ∧
      ∀ x ∈ [(⟨true, "/crashLog-3.log".toList⟩ : DirEntry), ⟨true, "/crashLog-7.log".toList⟩],
        entryNumber defaultConfig x ≤
          _getNumberOfNameMatch defaultConfig (bareName e.fileName)) ∧
    _getNextFileName defaultConfig [⟨false, "/crashLog-5.log".toList⟩] false =
      defaultConfig._fileDirectory ++ defaultConfig._filePrefix ++ "1".toList ++
        defaultConfig._fileSuffix :=
  ⟨(getNextFileName_last defaultConfig
      [⟨true, "/crashLog-3.log".toList⟩, ⟨true, "/crashLog-7.log".toList⟩]).1
      ⟨⟨true, "/crashLog-3.log".toList⟩, by decide, by decide⟩,
   (getNextFileName_last defaultConfig [⟨false, "/crashLog-5.log".toList⟩]).2 (by decide)⟩

/-- The number `_getNextFileName(true)` builds the path from is at least 1 and above
every assigned number, for every listing whose largest number is below `2^32 - 1`. -/
theorem next_number_gt_of_lt (cfg : Config) (listing : List DirEntry)
    (h : maxNumber cfg listing < 4294967295) :
    1 ≤ ((scanDir cfg listing).1 + 1) % 4294967296 ∧
    ∀ e ∈ listing, entryNumber cfg e < ((scanDir cfg listing).1 + 1) % 4294967296 := by
  rw [scanDir_fst, Nat.mod_eq_of_lt (by omega)]
  refine ⟨by omega, fun e he => ?_⟩
  have := le_maxNumber cfg listing e he
  omega

/-- C9, evaluated where it fails: the file `/crashLog--1.log` is assigned the number
4294967295, the scan ends with that number, `currentLogNumber + 1` is 0 in `uint32_t`
arithmetic, and the path to be written is the one of file number 0. -/
theorem next_number_zero_after_minus_one :
    entryNumber defaultConfig ⟨true, "/crashLog--1.log".toList⟩ = 4294967295 ∧
    ((scanDir defaultConfig [⟨true, "/crashLog--1.log".toList⟩]).1 + 1) % 4294967296 = 0 ∧
    _getNextFileName defaultConfig [⟨true, "/crashLog--1.log".toList⟩] true =
      _makeFileName defaultConfig 0 := by
  decide

theorem foldl_scanStep_of_le (cfg : Config) (post : List DirEntry) (st : Nat × Str)
    (h : ∀ x ∈ post, entryNumber cfg x ≤ st.1) : post.foldl (scanStep cfg) st = st := by
  induction post with
  | nil => rfl
  | cons a post ih =>
    have ha : scanStep cfg st a = st := by
      rw [scanStep_eq]
      have := h a (List.mem_cons_self _ _)
      by_cases h0 : entryNumber cfg a = 0
      · rw [if_pos h0]
      · rw [if_neg h0, if_neg (by omega)]
    rw [List.foldl_cons, ha]
    exact ih (fun x hx => h x (List.mem_cons_of_mem _ hx))

/-- C10, as the code has it: among the entries that carry the largest number, the one
enumerated first is returned by `_getNextFileName(false)`: if every entry before `e`
has a smaller number and no entry after it a larger one, the result is the name of `e`. -/
theorem getNextFileName_last_first_wins (cfg : Config) (pre post : List DirEntry)
    (e : DirEntry) (hne : entryNumber cfg e ≠ 0)
    (hpre : ∀ x ∈ pre, entryNumber cfg x < entryNumber cfg e)
    (hpost : ∀ x ∈ post, entryNumber cfg x ≤ entryNumber cfg e) :
    _getNextFileName cfg (pre ++ e :: post) false = e.fileName := by
  have hlt : (scanDir cfg pre).1 < entryNumber cfg e := by
    rw [scanDir_fst]
    rcases maxNumber_attained cfg pre with h | ⟨x, hx, hn⟩
    · omega
    · rw [← hn]; exact hpre x hx
  have hstep : scanStep cfg (scanDir cfg pre) e = (entryNumber cfg e, e.fileName) := by
    rw [scanStep_eq, if_neg hne, if_pos hlt]
  have hscan : scanDir cfg (pre ++ e :: post) = (entryNumber cfg e, e.fileName) := by
    have h1 : scanDir cfg (pre ++ e :: post) =
        post.foldl (scanStep cfg) (scanStep cfg (scanDir cfg pre) e) := by
      simp [scanDir, List.foldl_append]
    rw [h1, hstep]
    exact foldl_scanStep_of_le cfg post _ hpost
  have hnn : e.fileName ≠ [] := fileName_ne_nil_of_entryNumber cfg e hne
  unfold _getNextFileName
  simp only [Bool.not_false, Bool.true_and, decide_eq_true_eq]
  rw [hscan, if_pos hnn]

/-- Witness of C10: `/crashLog-7.log` enumerated before `/crashLog-07.log`, after
`/crashLog-3.log`. -/
theorem getNextFileName_last_first_wins_witness :
    _getNextFileName defaultConfig
      ([⟨true, "/crashLog-3.log".toList⟩] ++ ⟨true, "/crashLog-7.log".toList⟩ ::
        [⟨true, "/crashLog-07.log".toList⟩]) false =
      (⟨true, "/crashLog-7.log".toList⟩ : DirEntry).fileName :=
  getNextFileName_last_first_wins defaultConfig [⟨true, "/crashLog-3.log".toList⟩]
    [⟨true, "/crashLog-07.log".toList⟩] ⟨true, "/crashLog-7.log".toList⟩
    (by decide) (by decide) (by decide)

/-- C10 refuted as stated: `/crashLog-7.log` and `/crashLog-07.log` both carry the largest
number 7; the entry enumerated last is `/crashLog-07.log`, the result is the other one. -/
theorem tie_break_last_fails :
    entryNumber defaultConfig ⟨true, "/crashLog-7.log".toList⟩ = 7 ∧
    entryNumber defaultConfig ⟨true, "/crashLog-07.log".toList⟩ = 7 ∧
    maxNumber defaultConfig
      [⟨true, "/crashLog-7.log".toList⟩, ⟨true, "/crashLog-07.log".toList⟩] = 7 ∧
    _getNextFileName defaultConfig
      [⟨true, "/crashLog-7.log".toList⟩, ⟨true, "/crashLog-07.log".toList⟩] false =
      "/crashLog-7.log".toList ∧
    _getNextFileName defaultConfig
      [⟨true, "/crashLog-7.log".toList⟩, ⟨true, "/crashLog-07.log".toList⟩] false ≠
      "/crashLog-07.log".toList := by
  decide

/-! ## Matching a name and the round trip through `_makeFileName` -/

theorem isspace_of_isdigit (c : Char) (h : isdigit c = true) : isspace c = false := by
  simp only [isdigit, Bool.and_eq_true, decide_eq_true_eq] at h
  simp only [isspace, Bool.or_eq_false_iff, Bool.and_eq_false_iff, decide_eq_false_iff_not]
  omega

theorem not_sign_of_isdigit (c : Char) (h : isdigit c = true) : c ≠ '-' ∧ c ≠ '+' := by
  constructor <;> (rintro rfl; revert h; decide)

theorem digitChar_toNat (m : Nat) (h : m < 10) : (Nat.digitChar m).toNat = 48 + m := by
  interval_cases m <;> rfl

theorem isdigit_digitChar (m : Nat) (h : m < 10) : isdigit (Nat.digitChar m) = true := by
  interval_cases m <;> rfl

/-- On a string of digits the digit loop of `strtol` consumes everything. -/
theorem strtolDigits_eq_foldl (d : Str) (h : ∀ c ∈ d, isdigit c = true) (acc : Nat) :
    strtolDigits d acc = d.foldl (fun a c => a * 10 + (c.toNat - 48)) acc := by
  induction d generalizing acc with
  | nil => rfl
  | cons c d ih =>
    have hc : isdigit c = true := h c (List.mem_cons_self _ _)
    simp only [strtolDigits, hc, if_true, List.foldl_cons]
    exact ih (fun x hx => h x (List.mem_cons_of_mem _ hx)) _

/-- `strtol` of a string of digits is its decimal value, when that fits a `long`. -/
theorem strtol_digits (d : Str) (h : ∀ c ∈ d, isdigit c = true)
    (hv : decimalValue d ≤ 2147483647) : strtol d = (decimalValue d : Int) := by
  cases d with
  | nil => rfl
  | cons c t =>
    have hc : isdigit c = true := h c (List.mem_cons_self _ _)
    have hsp : isspace c = false := isspace_of_isdigit c hc
    obtain ⟨hm, hp⟩ := not_sign_of_isdigit c hc
    have hd : List.dropWhile isspace (c :: t) = c :: t := by
      simp [List.dropWhile, hsp]
    unfold strtol
    rw [hd]
    simp only [if_neg hm, if_neg hp]
    rw [strtolDigits_eq_foldl (c :: t) h 0]
    have hv2 : ((decimalValue (c :: t) : Nat) : Int) ≤ LONG_MAX := by
      unfold LONG_MAX
      exact_mod_cast hv
    exact min_eq_right hv2

theorem toUint32_natCast (n : Nat) (h : n < 4294967296) : toUint32 (n : Int) = n := by
  unfold toUint32
  omega

theorem startsWith_append (p x : Str) : startsWith (p ++ x) p = true := by
  simp [startsWith]

theorem endsWith_append (x s : Str) : endsWith (x ++ s) s = true := by
  simp [endsWith]

theorem substring_middle (p d s : Str) :
    substring (p ++ d ++ s) p.length ((p ++ d ++ s).length - s.length) = d := by
  have hr : (p ++ d ++ s).length - s.length = p.length + d.length := by
    simp only [List.length_append]
    omega
  rw [hr]
  unfold substring
  have h1 : ¬ (p.length > p.length + d.length) := by omega
  simp only [if_neg h1]
  by_cases h2 : p.length ≥ (p ++ d ++ s).length
  · rw [if_pos h2]
    have : d.length = 0 := by
      simp only [List.length_append] at h2
      omega
    exact (List.length_eq_zero.1 this).symm
  · rw [if_neg h2]
    have h3 : ¬ (p.length + d.length > (p ++ d ++ s).length) := by
      simp only [List.length_append]
      omega
    rw [if_neg h3]
    simp

/-- A name made of the prefix, a string of digits and the suffix is assigned the decimal
value of the digits, when that fits a `long`. -/
theorem getNumberOfNameMatch_digits (cfg : Config) (d : Str)
    (h : ∀ c ∈ d, isdigit c = true) (hv : decimalValue d ≤ 2147483647) :
    _getNumberOfNameMatch cfg (cfg._filePrefix ++ d ++ cfg._fileSuffix) = decimalValue d := by
  unfold _getNumberOfNameMatch
  have hs : startsWith (cfg._filePrefix ++ d ++ cfg._fileSuffix) cfg._filePrefix = true := by
    rw [List.append_assoc]; exact startsWith_append _ _
  have he : endsWith (cfg._filePrefix ++ d ++ cfg._fileSuffix) cfg._fileSuffix = true :=
    endsWith_append _ _
  simp only [hs, he, Bool.not_true, Bool.false_eq_true, if_false]
  rw [substring_middle, strtol_digits d h hv]
  exact toUint32_natCast _ (by omega)

/-- The digits `toDigitsCore` puts in front of its accumulator, with enough fuel, are
decimal digits whose value is the number. -/
theorem toDigitsCore_decimal (fuel : Nat) :
    ∀ (n : Nat) (acc : Str), n < fuel →
      ∃ ds : Str, Nat.toDigitsCore 10 fuel n acc = ds ++ acc ∧
        (∀ c ∈ ds, isdigit c = true) ∧ decimalValue ds = n := by
  induction fuel with
  | zero => intro n acc h; omega
  | succ fuel ih =>
    intro n acc hn
    have hdig : isdigit (Nat.digitChar (n % 10)) = true :=
      isdigit_digitChar _ (Nat.mod_lt _ (by norm_num))
    have hval : (Nat.digitChar (n % 10)).toNat - 48 = n % 10 := by
      rw [digitChar_toNat _ (Nat.mod_lt _ (by norm_num))]; omega
    by_cases hq : n / 10 = 0
    · refine ⟨[Nat.digitChar (n % 10)], by simp [Nat.toDigitsCore, hq], ?_, ?_⟩
      · intro c hc
        rw [List.mem_singleton.1 hc]; exact hdig
      · simp only [decimalValue, List.foldl_cons, List.foldl_nil, hval]
        omega
    · obtain ⟨ds, hds, hall, hv⟩ := ih (n / 10) (Nat.digitChar (n % 10) :: acc) (by omega)
      refine ⟨ds ++ [Nat.digitChar (n % 10)], by simp [Nat.toDigitsCore, hq, hds], ?_, ?_⟩
      · intro c hc
        rcases List.mem_append.1 hc with hc | hc
        · exact hall c hc
        · rw [List.mem_singleton.1 hc]; exact hdig
      · unfold decimalValue at hv ⊢
        rw [List.foldl_append, hv]
        simp only [List.foldl_cons, List.foldl_nil, hval]
        omega

/-- `String(n)` is a string of digits whose decimal value is `n`. -/
theorem decimal_spec (n : Nat) :
    (∀ c ∈ decimal n, isdigit c = true) ∧ decimalValue (decimal n) = n := by
  obtain ⟨ds, hds, hall, hv⟩ := toDigitsCore_decimal (n + 1) n [] (by omega)
  have : decimal n = ds := by
    simp [decimal, Nat.toDigits, hds]
  rw [this]
  exact ⟨hall, hv⟩

/-- C3, as the code has it: for every configuration and every file number up to
`2^31 - 1`, `_getNumberOfNameMatch` applied to the name `_makeFileName` produces, taken
after the directory part (prefix + decimal number + suffix), returns the number. -/
theorem getNumberOfNameMatch_makeFileName (cfg : Config) (n : Nat) (h1 : 1 ≤ n)
    (h2 : n ≤ 2147483647) :
    _getNumberOfNameMatch cfg ((_makeFileName cfg n).drop cfg._fileDirectory.length) = n ∧
    _getNumberOfNameMatch cfg ((_makeFileName cfg n).drop cfg._fileDirectory.length) ≠ 0 := by
  have hdrop : (_makeFileName cfg n).drop cfg._fileDirectory.length =
      cfg._filePrefix ++ decimal n ++ cfg._fileSuffix := by
    simp [_makeFileName, List.append_assoc]
  obtain ⟨hall, hv⟩ := decimal_spec n
  rw [hdrop, getNumberOfNameMatch_digits cfg (decimal n) hall (by rw [hv]; exact h2), hv]
  exact ⟨rfl, by omega⟩

/-- Witness of C3: file number 8 under the default configuration. -/
theorem getNumberOfNameMatch_makeFileName_witness :
    _getNumberOfNameMatch defaultConfig
      ((_makeFileName defaultConfig 8).drop defaultConfig._fileDirectory.length) = 8 ∧
    _getNumberOfNameMatch defaultConfig
      ((_makeFileName defaultConfig 8).drop defaultConfig._fileDirectory.length) ≠ 0 :=
  getNumberOfNameMatch_makeFileName defaultConfig 8 (by decide) (by decide)

theorem lastIndexOfFrom_not_mem (c : Char) (s : Str) (h : c ∉ s) :
    ∀ (i : Nat) (acc : Int), lastIndexOfFrom c s i acc = acc := by
  induction s with
  | nil => intro i acc; rfl
  | cons x s ih =>
    intro i acc
    have hx : x ≠ c := fun hxc => h (hxc ▸ List.mem_cons_self _ _)
    have hs : c ∉ s := fun hm => h (List.mem_cons_of_mem _ hm)
    simp only [lastIndexOfFrom, if_neg hx]
    exact ih hs _ _

theorem lastIndexOfFrom_last (c : Char) (b : Str) (h : c ∉ b) (a : Str) :
    ∀ (i : Nat) (acc : Int),
      lastIndexOfFrom c (a ++ c :: b) i acc = ((i + a.length : Nat) : Int) := by
  induction a with
  | nil =>
    intro i acc
    simp only [List.nil_append, lastIndexOfFrom, if_true, List.length_nil, Nat.add_zero]
    exact lastIndexOfFrom_not_mem c b h _ _
  | cons x a ih =>
    intro i acc
    have hstep : lastIndexOfFrom c ((x :: a) ++ c :: b) i acc =
        lastIndexOfFrom c (a ++ c :: b) (i + 1) (if x = c then (i : Int) else acc) := rfl
    rw [hstep, ih, List.length_cons]
    congr 1
    omega

/-- The bare name of a reported name without a slash is the name itself. -/
theorem bareName_of_no_slash (b : Str) (h : '/' ∉ b) : bareName b = b := by
  unfold bareName lastIndexOf
  rw [lastIndexOfFrom_not_mem '/' b h]
  simp only [substring]
  cases b with
  | nil => rfl
  | cons x b => simp

/-- The bare name of a reported path is what follows its last slash. -/
theorem bareName_after_slash (a b : Str) (h : '/' ∉ b) : bareName (a ++ '/' :: b) = b := by
  unfold bareName lastIndexOf
  rw [lastIndexOfFrom_last '/' b h a 0 (-1)]
  have hpos : ((0 + a.length : Nat) : Int) ≥ 0 := Int.natCast_nonneg _
  have hn : (((0 + a.length : Nat) : Int) + 1).toNat = a.length + 1 := by omega
  simp only [if_pos hpos, hn]
  unfold substring
  have h1 : ¬ (a.length + 1 > (a ++ '/' :: b).length) := by simp
  simp only [if_neg h1]
  by_cases h2 : a.length + 1 ≥ (a ++ '/' :: b).length
  · rw [if_pos h2]
    have : b.length = 0 := by
      simp only [List.length_append, List.length_cons] at h2
      omega
    exact (List.length_eq_zero.1 this).symm
  · rw [if_neg h2]
    have h3 : ¬ ((a ++ '/' :: b).length > (a ++ '/' :: b).length) := by omega
    rw [if_neg h3]
    have hd : List.drop (a.length + 1) (a ++ '/' :: b) = b := by
      have : a ++ '/' :: b = (a ++ ['/']) ++ b := by simp
      rw [this]
      have hl : a.length + 1 = (a ++ ['/']).length := by simp
      rw [hl, List.drop_left]
    rw [hd]
    apply List.take_of_length_le
    simp only [List.length_append, List.length_cons]
    omega

theorem slash_not_mem_decimal (n : Nat) : '/' ∉ decimal n := by
  intro hm
  have := (decimal_spec n).1 '/' hm
  revert this
  decide

/-- A file written under the path `_makeFileName` builds is found again by the scans
with its number: when the directory is empty or ends with a slash and neither prefix nor
suffix holds a slash, the entry reported under that path is assigned `n`. -/
theorem entryNumber_makeFileName (cfg : Config) (n : Nat) (h2 : n ≤ 2147483647)
    (hdir : cfg._fileDirectory = [] ∨ ∃ a, cfg._fileDirectory = a ++ ['/'])
    (hpre : '/' ∉ cfg._filePrefix) (hsuf : '/' ∉ cfg._fileSuffix) :
    entryNumber cfg ⟨true, _makeFileName cfg n⟩ = n := by
  have hno : '/' ∉ cfg._filePrefix ++ decimal n ++ cfg._fileSuffix := by
    simp only [List.mem_append, not_or]
    exact ⟨⟨hpre, slash_not_mem_decimal n⟩, hsuf⟩
  have hbare : bareName (_makeFileName cfg n) =
      cfg._filePrefix ++ decimal n ++ cfg._fileSuffix := by
    rcases hdir with h | ⟨a, h⟩
    · have : _makeFileName cfg n = cfg._filePrefix ++ decimal n ++ cfg._fileSuffix := by
        simp [_makeFileName, h]
      rw [this]
      exact bareName_of_no_slash _ hno
    · have : _makeFileName cfg n =
          a ++ '/' :: (cfg._filePrefix ++ decimal n ++ cfg._fileSuffix) := by
        simp [_makeFileName, h]
      rw [this]
      exact bareName_after_slash a _ hno
  obtain ⟨hall, hv⟩ := decimal_spec n
  simp only [entryNumber, if_true]
  rw [hbare, getNumberOfNameMatch_digits cfg (decimal n) hall (by rw [hv]; exact h2), hv]

/-- C3 refuted as stated: under the default configuration the name `_makeFileName(1)`
produces starts with the directory and is assigned 0; with an empty directory the name
of file number `2^31` is assigned `2^31 - 1`. -/
theorem round_trip_fails :
    _getNumberOfNameMatch defaultConfig (_makeFileName defaultConfig 1) = 0 ∧
    _makeFileName ⟨[], DEFAULT_CRASHFILEPREFIX, DEFAULT_CRASHFILESUFFIX⟩ 2147483648 =
      "crashLog-2147483648.log".toList ∧
    _getNumberOfNameMatch ⟨[], DEFAULT_CRASHFILEPREFIX, DEFAULT_CRASHFILESUFFIX⟩
      (_makeFileName ⟨[], DEFAULT_CRASHFILEPREFIX, DEFAULT_CRASHFILESUFFIX⟩ 2147483648) =
      2147483647 := by
  decide

theorem prefix_of_startsWith (s p : Str) (h : startsWith s p = true) : p <+: s := by
  unfold startsWith at h
  split at h
  · exact absurd h (by simp)
  · rw [List.prefix_iff_eq_take]
    exact (beq_iff_eq.1 h).symm

theorem suffix_of_endsWith (s x : Str) (h : endsWith s x = true) : x <:+ s := by
  unfold endsWith at h
  split at h
  · exact absurd h (by simp)
  · rw [List.suffix_iff_eq_drop]
    exact (beq_iff_eq.1 h).symm

theorem count_append_singleton (cfg : Config) (l : List DirEntry) (e : DirEntry) :
    count cfg (l ++ [e]) =
      if !e.isFile then count cfg l
      else if _getNumberOfNameMatch cfg (bareName e.fileName) ≠ 0 then
        (count cfg l + 1) % 4294967296
      else count cfg l := by
  simp [count, List.foldl_append]

theorem iterate_append_singleton (cfg : Config) (l : List DirEntry) (e : DirEntry) :
    iterateCrashLogFiles cfg (l ++ [e]) =
      if !e.isFile then iterateCrashLogFiles cfg l
      else if _getNumberOfNameMatch cfg (bareName e.fileName) = 0 then
        iterateCrashLogFiles cfg l
      else iterateCrashLogFiles cfg l ++
        [(_getNumberOfNameMatch cfg (bareName e.fileName), e.fileName)] := by
  simp [iterateCrashLogFiles, List.foldl_append]

theorem strtolDigits_ne_zero (t : Str) :
    ∀ acc : Nat, strtolDigits t acc ≠ 0 →
      acc ≠ 0 ∨ ∃ c ∈ t, isdigit c = true ∧ c ≠ '0' := by
  induction t with
  | nil => intro acc h; left; exact h
  | cons c t ih =>
    intro acc h
    by_cases hc : isdigit c = true
    · simp only [strtolDigits, hc, if_true] at h
      rcases ih _ h with h1 | ⟨x, hx, hd⟩
      · by_cases hacc : acc = 0
        · right
          refine ⟨c, List.mem_cons_self _ _, hc, ?_⟩
          rintro rfl
          apply h1
          rw [hacc]
          rfl
        · left; exact hacc
      · right; exact ⟨x, List.mem_cons_of_mem _ hx, hd⟩
    · simp only [strtolDigits, hc] at h
      left
      exact h

/-- A non-zero result of `strtol` needs a non-zero decimal digit in the string. -/
theorem strtol_ne_zero (s : Str) (h : strtol s ≠ 0) :
    ∃ c ∈ s, isdigit c = true ∧ c ≠ '0' := by
  have hsub : List.dropWhile isspace s ⊆ s := (List.dropWhile_suffix isspace).subset
  unfold strtol at h
  cases hd : List.dropWhile isspace s with
  | nil => rw [hd] at h; exact absurd rfl h
  | cons c t =>
    rw [hd] at h hsub
    have key : strtolDigits t 0 ≠ 0 ∨ strtolDigits (c :: t) 0 ≠ 0 := by
      by_contra hcon
      push_neg at hcon
      apply h
      simp only [hcon.1, hcon.2]
      split <;> [skip; split] <;> decide
    rcases key with hk | hk
    · rcases strtolDigits_ne_zero t 0 hk with h0 | ⟨x, hx, hdig⟩
      · exact absurd rfl h0
      · exact ⟨x, hsub (List.mem_cons_of_mem _ hx), hdig⟩
    · rcases strtolDigits_ne_zero (c :: t) 0 hk with h0 | ⟨x, hx, hdig⟩
      · exact absurd rfl h0
      · exact ⟨x, hsub hx, hdig⟩

/-- Every text splits into its leading run of digits, which is what the digit loop of
`strtol` converts, and a rest that does not begin with a digit. -/
theorem digit_run (u : Str) :
    ∃ d r : Str, u = d ++ r ∧ (∀ c ∈ d, isdigit c = true) ∧
      (∀ c ∈ r.take 1, isdigit c = false) ∧
      ∀ acc : Nat, strtolDigits u acc = d.foldl (fun a c => a * 10 + (c.toNat - 48)) acc := by
  induction u with
  | nil => exact ⟨[], [], rfl, by simp, by simp, fun _ => rfl⟩
  | cons c u ih =>
    by_cases hc : isdigit c = true
    · obtain ⟨d, r, hu, hd, hr, hval⟩ := ih
      refine ⟨c :: d, r, by rw [hu]; rfl, ?_, hr, ?_⟩
      · intro x hx
        rcases List.mem_cons.1 hx with h | h
        · rw [h]; exact hc
        · exact hd x h
      · intro acc
        simp only [strtolDigits, hc, if_true, List.foldl_cons]
        exact hval _
    · refine ⟨[], c :: u, rfl, by simp, ?_, ?_⟩
      · intro x hx
        have : x = c := by simpa using hx
        rw [this]
        simpa using hc
      · intro acc
        simp only [strtolDigits, hc, List.foldl_nil]
        rfl

/-- The digit loop of `strtol` converts a run of digits and stops at a rest that does not
begin with a digit. -/
theorem strtolDigits_run (d r : Str) (hd : ∀ c ∈ d, isdigit c = true)
    (hr : ∀ c ∈ r.take 1, isdigit c = false) :
    ∀ acc : Nat, strtolDigits (d ++ r) acc =
      d.foldl (fun a c => a * 10 + (c.toNat - 48)) acc := by
  induction d with
  | nil =>
    intro acc
    cases r with
    | nil => rfl
    | cons c r =>
      have hc : isdigit c = false := hr c (by simp)
      simp [strtolDigits, hc]
  | cons c d ih =>
    intro acc
    have hc : isdigit c = true := hd c (List.mem_cons_self _ _)
    simp only [List.cons_append, strtolDigits, hc, if_true, List.foldl_cons]
    exact ih (fun x hx => hd x (List.mem_cons_of_mem _ hx)) _

theorem dropWhile_isspace_append (w x : Str) (hw : ∀ c ∈ w, isspace c = true)
    (hx : ∀ c ∈ x.take 1, isspace c = false) :
    List.dropWhile isspace (w ++ x) = x := by
  induction w with
  | nil =>
    cases x with
    | nil => rfl
    | cons c x =>
      have hc : isspace c = false := hx c (by simp)
      simp [List.dropWhile, hc]
  | cons c w ih =>
    have hc : isspace c = true := hw c (List.mem_cons_self _ _)
    simp only [List.cons_append, List.dropWhile, hc]
    exact ih (fun y hy => hw y (List.mem_cons_of_mem _ hy))

/-- What `strtol` returns on a text of the shape white space, optional sign, digits,
rest: the decimal value of the digits, negated after a minus sign, limited to the range
of a 32-bit `long`. -/
theorem strtol_of_shape (w sgn d r : Str) (h : NumberText w sgn d r) :
    strtol (w ++ sgn ++ d ++ r) =
      if sgn = ['-'] then max LONG_MIN (-((decimalValue d : Nat) : Int))
      else min LONG_MAX ((decimalValue d : Nat) : Int) := by
  obtain ⟨c, d', hcd⟩ : ∃ c d', d = c :: d' := by
    cases hd : d with
    | nil => exact absurd hd h.nonempty
    | cons c d' => exact ⟨c, d', rfl⟩
  have hc : isdigit c = true := h.digits c (by rw [hcd]; exact List.mem_cons_self _ _)
  have hrun := strtolDigits_run d r h.digits h.rest 0
  have hassoc : w ++ sgn ++ d ++ r = w ++ (sgn ++ (d ++ r)) := by simp
  rcases h.sign with hs | hs | hs
  · have hdrop : List.dropWhile isspace (w ++ (sgn ++ (d ++ r))) = c :: (d' ++ r) := by
      rw [hs, hcd]
      exact dropWhile_isspace_append w _ h.space
        (by intro x hx; have : x = c := by simpa using hx
            rw [this]; exact isspace_of_isdigit c hc)
    obtain ⟨hm, hp⟩ := not_sign_of_isdigit c hc
    unfold strtol
    rw [hassoc, hdrop]
    simp only [if_neg hm, if_neg hp]
    have : c :: (d' ++ r) = d ++ r := by rw [hcd]; rfl
    rw [this, hrun, hs]
    simp [decimalValue]
  · have hdrop : List.dropWhile isspace (w ++ (sgn ++ (d ++ r))) = '+' :: (d ++ r) := by
      rw [hs]
      exact dropWhile_isspace_append w _ h.space
        (by intro x hx; have : x = '+' := by simpa using hx
            rw [this]; decide)
    unfold strtol
    rw [hassoc, hdrop]
    have h1 : ¬ ('+' = '-') := by decide
    simp only [if_neg h1, if_true]
    rw [hrun, hs]
    simp [decimalValue]
  · have hdrop : List.dropWhile isspace (w ++ (sgn ++ (d ++ r))) = '-' :: (d ++ r) := by
      rw [hs]
      exact dropWhile_isspace_append w _ h.space
        (by intro x hx; have : x = '-' := by simpa using hx
            rw [this]; decide)
    unfold strtol
    rw [hassoc, hdrop]
    simp only [if_true]
    rw [hrun, hs]
    simp [decimalValue]

/-- A non-zero result of `strtol` comes from a text of the shape white space, optional
sign, a non-empty run of digits of non-zero value, rest. -/
theorem shape_of_strtol_ne_zero (t : Str) (h : strtol t ≠ 0) :
    ∃ w sgn d r : Str, t = w ++ sgn ++ d ++ r ∧ NumberText w sgn d r ∧
      decimalValue d ≠ 0 := by
  have hsplit : List.takeWhile isspace t ++ List.dropWhile isspace t = t :=
    List.takeWhile_append_dropWhile _ _
  have hw : ∀ c ∈ List.takeWhile isspace t, isspace c = true :=
    fun c hc => List.mem_takeWhile_imp hc
  unfold strtol at h
  cases hd : List.dropWhile isspace t with
  | nil => rw [hd] at h; exact absurd rfl h
  | cons c u =>
    rw [hd] at h hsplit
    have build : ∀ (sgn v : Str), (sgn = [] ∨ sgn = ['+'] ∨ sgn = ['-']) →
        c :: u = sgn ++ v → strtolDigits v 0 ≠ 0 →
        ∃ w sgn d r : Str, t = w ++ sgn ++ d ++ r ∧ NumberText w sgn d r ∧
          decimalValue d ≠ 0 := by
      intro sgn v hsgn hcu hv
      obtain ⟨d, r, hvd, hdig, hrest, hval⟩ := digit_run v
      have hval0 : decimalValue d ≠ 0 := by
        unfold decimalValue
        rw [← hval 0]
        exact hv
      have hne : d ≠ [] := by
        rintro rfl
        exact hval0 rfl
      refine ⟨List.takeWhile isspace t, sgn, d, r, ?_, ⟨hw, hsgn, hdig, hne, hrest⟩, hval0⟩
      have ht : t = List.takeWhile isspace t ++ (c :: u) := hsplit.symm
      rw [hcu, hvd] at ht
      simpa only [List.append_assoc] using ht
    change (if c = '-' then max LONG_MIN (-((strtolDigits u 0 : Nat) : Int))
      else if c = '+' then min LONG_MAX ((strtolDigits u 0 : Nat) : Int)
      else min LONG_MAX ((strtolDigits (c :: u) 0 : Nat) : Int)) ≠ 0 at h
    by_cases hm : c = '-'
    · rw [if_pos hm] at h
      apply build ['-'] u (Or.inr (Or.inr rfl)) (by rw [hm]; rfl)
      intro hz
      apply h
      rw [hz]
      decide
    · rw [if_neg hm] at h
      by_cases hp : c = '+'
      · rw [if_pos hp] at h
        apply build ['+'] u (Or.inr (Or.inl rfl)) (by rw [hp]; rfl)
        intro hz
        apply h
        rw [hz]
        decide
      · rw [if_neg hp] at h
        apply build [] (c :: u) (Or.inl rfl) rfl
        intro hz
        apply h
        rw [hz]
        decide

/-- The number assigned to prefix + text + suffix is `strtol` of the text, as `uint32_t`. -/
theorem getNumberOfNameMatch_middle (cfg : Config) (t : Str) :
    _getNumberOfNameMatch cfg (cfg._filePrefix ++ t ++ cfg._fileSuffix) =
      toUint32 (strtol t) := by
  unfold _getNumberOfNameMatch
  have hs : startsWith (cfg._filePrefix ++ t ++ cfg._fileSuffix) cfg._filePrefix = true := by
    rw [List.append_assoc]; exact startsWith_append _ _
  have he : endsWith (cfg._filePrefix ++ t ++ cfg._fileSuffix) cfg._fileSuffix = true :=
    endsWith_append _ _
  simp only [hs, he, Bool.not_true, Bool.false_eq_true, if_false]
  rw [substring_middle]

/-- A name that starts with the prefix, ends with the suffix and is at least as long as
both together is the prefix, a text and the suffix. -/
theorem middle_of_prefix_suffix (p s name : Str) (hp : p <+: name) (hs : s <:+ name)
    (hlen : p.length + s.length ≤ name.length) : ∃ t : Str, name = p ++ t ++ s := by
  obtain ⟨x, hx⟩ := hp
  obtain ⟨y, hy⟩ := hs
  have heq : p ++ x = y ++ s := by rw [hx, hy]
  have hl : name.length = p.length + x.length := by rw [← hx, List.length_append]
  rcases List.append_eq_append_iff.1 heq with ⟨a, hya, hxa⟩ | ⟨a, hpa, hsa⟩
  · exact ⟨a, by rw [← hx, hxa, List.append_assoc]⟩
  · have ha : a.length = 0 := by
      have h1 := congrArg List.length hsa
      have h2 := congrArg List.length hpa
      simp only [List.length_append] at h1 h2
      omega
    have hnil : a = [] := List.length_eq_zero.1 ha
    rw [hnil, List.nil_append] at hsa
    exact ⟨[], by rw [← hx, hsa]; simp⟩

/-- C8, as the code has it: (1) a name is assigned a non-zero number only if it starts
with the prefix and ends with the suffix and, when it is at least as long as prefix and
suffix together, only if it is prefix + w + sgn + d + r + suffix with w white space, sgn
an optional sign, d a non-empty string of decimal digits of non-zero value and r a rest
that does not begin with a digit; (2) every name of that form without a minus sign and
with the value of d at most `2^31 - 1` is assigned the decimal value of d; (3) in
particular prefix + d + suffix with d a non-empty string of decimal digits of value at
most `2^31 - 1` is assigned the decimal value of d; (4) an entry whose bare name is
assigned 0 is skipped by the scans of `_getNextFileName`, `count` and
`iterateCrashLogFiles`. -/
theorem getNumberOfNameMatch_spec (cfg : Config) :
    (∀ name : Str, _getNumberOfNameMatch cfg name ≠ 0 →
      cfg._filePrefix <+: name ∧ cfg._fileSuffix <:+ name ∧
      (cfg._filePrefix.length + cfg._fileSuffix.length ≤ name.length →
        ∃ w sgn d r : Str,
          name = cfg._filePrefix ++ w ++ sgn ++ d ++ r ++ cfg._fileSuffix ∧
          NumberText w sgn d r ∧ decimalValue d ≠ 0)) ∧
    (∀ w sgn d r : Str, NumberText w sgn d r → sgn ≠ ['-'] →
      decimalValue d ≤ 2147483647 →
      _getNumberOfNameMatch cfg
        (cfg._filePrefix ++ w ++ sgn ++ d ++ r ++ cfg._fileSuffix) = decimalValue d) ∧
    (∀ d : Str, d ≠ [] → (∀ c ∈ d, isdigit c = true) → decimalValue d ≤ 2147483647 →
      _getNumberOfNameMatch cfg (cfg._filePrefix ++ d ++ cfg._fileSuffix) = decimalValue d) ∧
    (∀ (e : DirEntry) (st : Nat × Str) (l : List DirEntry),
      _getNumberOfNameMatch cfg (bareName e.fileName) = 0 →
      scanStep cfg st e = st ∧ count cfg (l ++ [e]) = count cfg l ∧
      iterateCrashLogFiles cfg (l ++ [e]) = iterateCrashLogFiles cfg l) := by
  refine ⟨?_, ?_, ?_, ?_⟩
  · intro name hne
    have hs : startsWith name cfg._filePrefix = true := by
      by_contra hs
      exact hne (by simp [_getNumberOfNameMatch, hs])
    have he : endsWith name cfg._fileSuffix = true := by
      by_contra he
      exact hne (by simp [_getNumberOfNameMatch, he])
    have hp := prefix_of_startsWith _ _ hs
    have hsf := suffix_of_endsWith _ _ he
    refine ⟨hp, hsf, ?_⟩
    intro hlen
    obtain ⟨t, ht⟩ := middle_of_prefix_suffix _ _ _ hp hsf hlen
    rw [ht, getNumberOfNameMatch_middle] at hne
    have hstr : strtol t ≠ 0 := by
      intro hz
      apply hne
      rw [hz]
      rfl
    obtain ⟨w, sgn, d, r, htd, hshape, hval⟩ := shape_of_strtol_ne_zero t hstr
    refine ⟨w, sgn, d, r, ?_, hshape, hval⟩
    rw [ht, htd]
    simp only [List.append_assoc]
  · intro w sgn d r hshape hsgn hv
    have hname : cfg._filePrefix ++ w ++ sgn ++ d ++ r ++ cfg._fileSuffix =
        cfg._filePrefix ++ (w ++ sgn ++ d ++ r) ++ cfg._fileSuffix := by
      simp only [List.append_assoc]
    rw [hname, getNumberOfNameMatch_middle, strtol_of_shape w sgn d r hshape, if_neg hsgn]
    have hv2 : ((decimalValue d : Nat) : Int) ≤ LONG_MAX := by
      unfold LONG_MAX
      exact_mod_cast hv
    rw [min_eq_right hv2]
    exact toUint32_natCast _ (by omega)
  · intro d _ hall hv
    exact getNumberOfNameMatch_digits cfg d hall hv
  · intro e st l h0
    refine ⟨?_, ?_, ?_⟩
    · rw [scanStep_eq]
      have : entryNumber cfg e = 0 := by simp [entryNumber, h0]
      rw [if_pos this]
    · rw [count_append_singleton]
      simp [h0]
    · rw [iterate_append_singleton]
      simp [h0]

/-- Witness of C8: part (1) at `crashLog-12abc.log`, part (2) at the text ` +42abc`,
part (3) at the digits `42`, part (4) at the entry `/notes.txt`, under the default
configuration. -/
theorem getNumberOfNameMatch_spec_witness :
    (defaultConfig._filePrefix <+: "crashLog-12abc.log".toList ∧
      defaultConfig._fileSuffix <:+ "crashLog-12abc.log".toList ∧
      ∃ w sgn d r : Str,
        "crashLog-12abc.log".toList =
          defaultConfig._filePrefix ++ w ++ sgn ++ d ++ r ++ defaultConfig._fileSuffix ∧
        NumberText w sgn d r ∧ decimalValue d ≠ 0) ∧
    _getNumberOfNameMatch defaultConfig
      (defaultConfig._filePrefix ++ " ".toList ++ "+".toList ++ "42".toList ++
        "abc".toList ++ defaultConfig._fileSuffix) = decimalValue "42".toList ∧
    _getNumberOfNameMatch defaultConfig
      (defaultConfig._filePrefix ++ "42".toList ++ defaultConfig._fileSuffix) =
      decimalValue "42".toList ∧
    (scanStep defaultConfig (3, "/crashLog-3.log".toList) ⟨true, "/notes.txt".toList⟩ =
        (3, "/crashLog-3.log".toList) ∧
      count defaultConfig ([⟨true, "/crashLog-3.log".toList⟩] ++ [⟨true, "/notes.txt".toList⟩]) =
        count defaultConfig [⟨true, "/crashLog-3.log".toList⟩] ∧
      iterateCrashLogFiles defaultConfig
        ([⟨true, "/crashLog-3.log".toList⟩] ++ [⟨true, "/notes.txt".toList⟩]) =
        iterateCrashLogFiles defaultConfig [⟨true, "/crashLog-3.log".toList⟩]) :=
  ⟨⟨((getNumberOfNameMatch_spec defaultConfig).1 "crashLog-12abc.log".toList
        (by decide)).1,
    ((getNumberOfNameMatch_spec defaultConfig).1 "crashLog-12abc.log".toList
        (by decide)).2.1,
    ((getNumberOfNameMatch_spec defaultConfig).1 "crashLog-12abc.log".toList
        (by decide)).2.2 (by decide)⟩,
   (getNumberOfNameMatch_spec defaultConfig).2.1 " ".toList "+".toList "42".toList
     "abc".toList ⟨by decide, by decide, by decide, by decide, by decide⟩ (by decide)
     (by decide),
   (getNumberOfNameMatch_spec defaultConfig).2.2.1 "42".toList (by decide) (by decide)
     (by decide),
   (getNumberOfNameMatch_spec defaultConfig).2.2.2 ⟨true, "/notes.txt".toList⟩
     (3, "/crashLog-3.log".toList) [⟨true, "/crashLog-3.log".toList⟩] (by decide)⟩

/-- C8 refuted as stated: `crashLog-12abc.log` is assigned 12 although it is not the
prefix, a non-empty string of decimal digits and the suffix; `crashLog- 7.log` and
`crashLog-+7.log` are assigned 7 and `crashLog--1.log` is assigned 4294967295;
`crashLog-2147483648.log` is assigned 2147483647, not the value of its digits; with
prefix `a1` and suffix `1b` the name `a1b`, which is shorter than prefix and suffix
together, is assigned 1. -/
theorem nonzero_without_digit_form :
    _getNumberOfNameMatch defaultConfig "crashLog-12abc.log".toList = 12 ∧
    (¬ ∃ d : Str, "crashLog-12abc.log".toList =
        defaultConfig._filePrefix ++ d ++ defaultConfig._fileSuffix ∧
        d ≠ [] ∧ ∀ c ∈ d, isdigit c = true) ∧
    _getNumberOfNameMatch defaultConfig "crashLog--1.log".toList = 4294967295 ∧
    _getNumberOfNameMatch defaultConfig "crashLog- 7.log".toList = 7 ∧
    _getNumberOfNameMatch defaultConfig "crashLog-+7.log".toList = 7 ∧
    _getNumberOfNameMatch defaultConfig "crashLog-2147483648.log".toList = 2147483647 ∧
    decimalValue "2147483648".toList = 2147483648 ∧
    _getNumberOfNameMatch ⟨[], "a1".toList, "1b".toList⟩ "a1b".toList = 1 ∧
    (¬ ∃ d : Str, "a1b".toList = "a1".toList ++ d ++ "1b".toList) := by
  refine ⟨by decide, ?_, by decide, by decide, by decide, by decide, by decide, by decide,
    ?_⟩
  · rintro ⟨d, hd, -, hall⟩
    have h1 : defaultConfig._filePrefix ++ "12abc".toList ++ defaultConfig._fileSuffix =
        defaultConfig._filePrefix ++ d ++ defaultConfig._fileSuffix := by
      rw [← hd]; decide
    have h2 : "12abc".toList = d :=
      List.append_cancel_left (List.append_cancel_right h1)
    rw [← h2] at hall
    revert hall
    decide
  · rintro ⟨d, hd⟩
    have hl := congrArg List.length hd
    simp only [List.length_append] at hl
    have l1 : ("a1b".toList).length = 3 := rfl
    have l2 : ("a1".toList).length = 2 := rfl
    have l3 : ("1b".toList).length = 2 := rfl
    omega

/-- A digit later in the text does not count: `crashLog-abc5.log` and `crashLog-x-y-9z.log`
have no number at the start of the text between prefix and suffix and are assigned 0, as
is `crashLog-0.log`. -/
theorem late_digit_yields_zero :
    _getNumberOfNameMatch defaultConfig "crashLog-abc5.log".toList = 0 ∧
    _getNumberOfNameMatch defaultConfig "crashLog-x-y-9z.log".toList = 0 ∧
    _getNumberOfNameMatch defaultConfig "crashLog-0.log".toList = 0 := by
  decide

/-! ## `removeFile` and `readFile` -/

theorem pathExists_after_remove (fs : FS) (path : Str)
    (h : (fs.remove path).1 = true) : (fs.remove path).2.pathExists path = false := by
  unfold FS.remove at h ⊢
  split at h
  · next hany =>
    rw [if_pos hany]
    simp [FS.pathExists]
  · exact absurd h (by simp)

/-- C4, as the code has it: when `removeFile(k)` returns true, the path it targeted (the
path `_makeFileName` builds from `k`, or the cached last path when `k = 0`) no longer
exists and is not reported in the listing of the configured directory, the configuration
is unchanged, and the cached next and last paths are what `_getNextFileName(true)` and
`_getNextFileName(false)` compute on the directory listing after the deletion. -/
theorem removeFile_spec (self : EspSaveCrashSpiffs) (fs : FS) (k : Nat)
    (h : (removeFile self fs k).1 = true) :
    (removeFile self fs k).2.2.pathExists (targetPath self k) = false ∧
    (∀ e ∈ (removeFile self fs k).2.2.openDir self.cfg._fileDirectory,
      e.fileName ≠ targetPath self k) ∧
    (removeFile self fs k).2.1.cfg = self.cfg ∧
    (removeFile self fs k).2.1._crashLogFile =
      _getNextFileName self.cfg
        ((removeFile self fs k).2.2.openDir self.cfg._fileDirectory) true ∧
    (removeFile self fs k).2.1._lastLogFile =
      _getNextFileName self.cfg
        ((removeFile self fs k).2.2.openDir self.cfg._fileDirectory) false := by
  unfold removeFile at h ⊢
  by_cases hex : fs.pathExists (targetPath self k) = true
  · simp only [hex, if_true] at h ⊢
    have hgone := pathExists_after_remove fs (targetPath self k) h
    refine ⟨hgone, ?_, rfl, rfl, rfl⟩
    intro e he heq
    simp only [FS.openDir, List.mem_map, List.mem_filter] at he
    obtain ⟨x, ⟨hx, _⟩, hxe⟩ := he
    have hpath : x.path = targetPath self k := by rw [← heq, ← hxe]
    have : (fs.remove (targetPath self k)).2.pathExists (targetPath self k) = true := by
      simp only [FS.pathExists, List.any_eq_true]
      exact ⟨x, hx, by simp [hpath]⟩
    rw [hgone] at this
    exact absurd this (by simp)
  · simp only [hex] at h
    exact absurd h (by simp)

/-- Witness of C4: `removeFile(7)` over `/crashLog-7.log` and `/crashLog-07.log`. -/
theorem removeFile_spec_witness :
    (removeFile (constructed twoSevens) twoSevens 7).1 = true ∧
    ((removeFile (constructed twoSevens) twoSevens 7).2.2.pathExists
        (targetPath (constructed twoSevens) 7) = false ∧
      (∀ e ∈ (removeFile (constructed twoSevens) twoSevens 7).2.2.openDir
          (constructed twoSevens).cfg._fileDirectory,
        e.fileName ≠ targetPath (constructed twoSevens) 7) ∧
      (removeFile (constructed twoSevens) twoSevens 7).2.1.cfg = (constructed twoSevens).cfg ∧
      (removeFile (constructed twoSevens) twoSevens 7).2.1._crashLogFile =
        _getNextFileName (constructed twoSevens).cfg
          ((removeFile (constructed twoSevens) twoSevens 7).2.2.openDir
            (constructed twoSevens).cfg._fileDirectory) true ∧
      (removeFile (constructed twoSevens) twoSevens 7).2.1._lastLogFile =
        _getNextFileName (constructed twoSevens).cfg
          ((removeFile (constructed twoSevens) twoSevens 7).2.2.openDir
            (constructed twoSevens).cfg._fileDirectory) false) :=
  ⟨by decide, removeFile_spec (constructed twoSevens) twoSevens 7 (by decide)⟩

/-- C4 refuted as stated: with `/crashLog-7.log` and `/crashLog-07.log` in the directory,
`removeFile(7)` returns true and the listing afterwards still has a file entry that is
assigned the number 7. -/
theorem removed_number_still_matched :
    (removeFile (constructed twoSevens) twoSevens 7).1 = true ∧
    (removeFile (constructed twoSevens) twoSevens 7).2.2.openDir "/".toList =
      [⟨true, "/crashLog-07.log".toList⟩] ∧
    ∃ e ∈ (removeFile (constructed twoSevens) twoSevens 7).2.2.openDir "/".toList,
      e.isFile = true ∧ _getNumberOfNameMatch defaultConfig (bareName e.fileName) = 7 := by
  decide

/-- C7, evaluated where it fails: for a readable file of 10 bytes and a buffer of 4 bytes,
`readFile` passes the length 10 to `readBytes`, and 10 bytes are stored in the buffer. -/
theorem readFile_requests_beyond_buffer :
    (readFile ⟨true, [⟨"/crashLog-1.log".toList, true, "0123456789".toList⟩]⟩
      "/crashLog-1.log".toList 4).ok = true ∧
    (readFile ⟨true, [⟨"/crashLog-1.log".toList, true, "0123456789".toList⟩]⟩
      "/crashLog-1.log".toList 4).requested = 10 ∧
    (readFile ⟨true, [⟨"/crashLog-1.log".toList, true, "0123456789".toList⟩]⟩
      "/crashLog-1.log".toList 4).stored.length = 10 ∧
    ¬ (readFile ⟨true, [⟨"/crashLog-1.log".toList, true, "0123456789".toList⟩]⟩
      "/crashLog-1.log".toList 4).requested ≤ 4 := by
  decide

/-- For every readable file, the length `readFile` passes to `readBytes` is the larger of
the file size and the buffer size, and the whole file is stored. -/
theorem readFile_requested (fs : FS) (fileName : Str) (bufferSize : Nat) (f : FsEntry)
    (hcheck : _checkFile fs fileName (some "r".toList) = true)
    (hopen : fs.openRead fileName = some f) :
    (readFile fs fileName bufferSize).requested = max f.content.length bufferSize ∧
    (readFile fs fileName bufferSize).stored = f.content := by
  unfold readFile
  simp only [hcheck, hopen, Bool.not_true, Bool.false_eq_true, if_false]
  exact ⟨trivial, List.take_of_length_le (le_max_left _ _)⟩

/-! ## The crash-time writer -/

/-- While the 16-bit counter is a multiple of 16 and the stack length exceeds `0xFFF0`,
the dump loop does not exit, whatever the number of iterations allowed. -/
theorem stackDumpLoop_runs_on (stack stackLength : Nat) (mem : Nat → Nat)
    (hlen : 65520 < stackLength) :
    ∀ (fuel i : Nat), i % 16 = 0 → i < 65536 →
      stackDumpLoop stack stackLength mem fuel i = none := by
  intro fuel
  induction fuel with
  | zero => intro i _ _; rfl
  | succ fuel ih =>
    intro i h16 hlt
    have hi : i < stackLength := by omega
    have hnext := ih ((i + 0x10) % 65536) (by omega) (by omega)
    simp only [stackDumpLoop, hi, if_true, hnext]

/-- C5, evaluated where it fails: for `stack = 0x3fff0001` and `stack_end = 0x40000000`
the 16-bit stack length is `0xFFFF`, and once the crash file is open the callback does
not return within any number of iterations of the dump loop. -/
theorem crash_callback_never_returns (openWrite : Bool) (crashTime : Nat) (info : rst_info)
    (mem : Nat → Nat) (fuel : Nat) :
    stackLengthOf 0x3fff0001 0x40000000 = 0xFFFF ∧
    custom_crash_callback true openWrite crashTime info 0x3fff0001 0x40000000 mem fuel =
      none := by
  have hl : stackLengthOf 0x3fff0001 0x40000000 = 0xFFFF := by decide
  refine ⟨hl, ?_⟩
  unfold custom_crash_callback
  rw [hl, stackDumpLoop_runs_on 0x3fff0001 0xFFFF mem (by norm_num) fuel 0 (by norm_num)
    (by norm_num)]
  simp

theorem hexDigits_zero (k : Nat) : hexDigits k 0 = List.replicate k '0' := by
  induction k with
  | zero => rfl
  | succ k ih =>
    have h : hexDigits (k + 1) 0 = hexDigits k 0 ++ ['0'] := rfl
    rw [h, ih, List.replicate_succ']

theorem hexDigits_length (k : Nat) : ∀ n : Nat, (hexDigits k n).length = k := by
  induction k with
  | zero => intro n; rfl
  | succ k ih => intro n; simp [hexDigits, ih]

theorem hexDigits_mod (k : Nat) : ∀ n : Nat, hexDigits k (n % 16 ^ k) = hexDigits k n := by
  induction k with
  | zero => intro n; rfl
  | succ k ih =>
    intro n
    have hdiv : n % 16 ^ (k + 1) / 16 = n / 16 % 16 ^ k := by
      rw [pow_succ, mul_comm, Nat.mod_mul_right_div_self]
    have hmod : n % 16 ^ (k + 1) % 16 = n % 16 :=
      Nat.mod_mod_of_dvd n (Dvd.intro_left (16 ^ k) rfl)
    simp only [hexDigits, hdiv, hmod, ih]

theorem hexDigits_no_newline (k : Nat) : ∀ n : Nat, '\n' ∉ hexDigits k n := by
  induction k with
  | zero => intro n; simp [hexDigits]
  | succ k ih =>
    intro n hmem
    simp only [hexDigits, List.mem_append, List.mem_singleton] at hmem
    rcases hmem with h | h
    · exact ih _ h
    · have hlt : n % 16 < 16 := Nat.mod_lt _ (by norm_num)
      revert h
      generalize n % 16 = m at hlt
      interval_cases m <;> decide

/-- With enough fuel, the hexadecimal digits `toDigitsCore` produces, padded with zeros to
`k + 1` places, are the `k + 1` low hexadecimal digits of the number. -/
theorem toDigitsCore_hex (fuel : Nat) :
    ∀ (n k : Nat) (acc : Str), n < fuel → n < 16 ^ (k + 1) →
      ∃ ds : Str, Nat.toDigitsCore 16 fuel n acc = ds ++ acc ∧ ds.length ≤ k + 1 ∧
        List.replicate (k + 1 - ds.length) '0' ++ ds = hexDigits (k + 1) n := by
  induction fuel with
  | zero => intro n k acc h; omega
  | succ fuel ih =>
    intro n k acc hn hk
    by_cases hq : n / 16 = 0
    · refine ⟨[Nat.digitChar (n % 16)], by simp [Nat.toDigitsCore, hq], by simp, ?_⟩
      simp [hexDigits, hq, hexDigits_zero]
    · cases k with
      | zero => omega
      | succ k =>
        have hk2 : n / 16 < 16 ^ (k + 1) := by
          rw [Nat.div_lt_iff_lt_mul (by norm_num)]
          rw [pow_succ] at hk
          exact hk
        obtain ⟨ds, hds, hlen, hpad⟩ :=
          ih (n / 16) k (Nat.digitChar (n % 16) :: acc) (by omega) hk2
        refine ⟨ds ++ [Nat.digitChar (n % 16)], by simp [Nat.toDigitsCore, hq, hds],
          by simp; omega, ?_⟩
        have hsub : k + 1 + 1 - (ds ++ [Nat.digitChar (n % 16)]).length =
            k + 1 - ds.length := by
          simp
        have hdef : hexDigits (k + 1 + 1) n =
            hexDigits (k + 1) (n / 16) ++ [Nat.digitChar (n % 16)] := rfl
        rw [hsub, hdef, ← hpad, List.append_assoc]

/-- The conversion `%08x` prints the 8 low hexadecimal digits of its argument. -/
theorem fmt_08x_eq (v : Nat) : fmt_08x v = hexDigits 8 v := by
  have hlt : v % 4294967296 < 16 ^ (7 + 1) := by
    have : (16 : Nat) ^ (7 + 1) = 4294967296 := by norm_num
    rw [this]
    exact Nat.mod_lt _ (by norm_num)
  obtain ⟨ds, hds, _, hpad⟩ :=
    toDigitsCore_hex (v % 4294967296 + 1) (v % 4294967296) 7 [] (by omega) hlt
  have hd : Nat.toDigits 16 (v % 4294967296) = ds := by
    simp [Nat.toDigits, hds]
  have hm : hexDigits 8 (v % 4294967296) = hexDigits 8 v := by
    have h := hexDigits_mod 8 v
    have h16 : (16 : Nat) ^ 8 = 4294967296 := by norm_num
    rw [h16] at h
    exact h
  unfold fmt_08x
  simp only [hd]
  rw [← hm]
  exact hpad

theorem stackLine_eq_dumpLine (stack : Nat) (mem : Nat → Nat) (k : Nat) :
    stackLine stack mem (16 * k) = dumpLine stack mem k := by
  simp [stackLine, stackWord, dumpLine, fmt_08x_eq, List.append_assoc]

/-- For a stack length of at most `0xFFF0` the dump loop exits: started at the counter
value `16 * k` with more fuel than lines left, it writes the remaining lines. -/
theorem stackDumpLoop_terminates (stack L : Nat) (mem : Nat → Nat) (hL : L ≤ 65520) :
    ∀ (m k fuel : Nat), k + m = (L + 15) / 16 → m < fuel →
      stackDumpLoop stack L mem fuel (16 * k) =
        some ((List.range' k m).map (dumpLine stack mem)).flatten := by
  intro m
  induction m with
  | zero =>
    intro k fuel hk hf
    obtain ⟨f, rfl⟩ : ∃ f, fuel = f + 1 := ⟨fuel - 1, by omega⟩
    have hge : ¬ (16 * k < L) := by omega
    simp [stackDumpLoop, hge]
  | succ m ih =>
    intro k fuel hk hf
    obtain ⟨f, rfl⟩ : ∃ f, fuel = f + 1 := ⟨fuel - 1, by omega⟩
    have hlt : 16 * k < L := by omega
    have hnext : (16 * k + 0x10) % 65536 = 16 * (k + 1) := by omega
    have hrec := ih (k + 1) f (by omega) (by omega)
    simp only [stackDumpLoop, hlt, if_true, hnext, hrec, List.range'_succ, List.map_cons,
      List.flatten_cons, stackLine_eq_dumpLine]

/-- C6, as the code has it: for every stack range with `stack <= stack_end` of at most
`0xFFF0` (65520) bytes whose crash file opens, the callback returns (with any fuel above
the line count) and the text it appends is the header, the register text ending in the
marker `>>>stack>>>`, then exactly `ceil((stack_end - stack) / 16)` dump lines, line `k`
being `dumpLine stack mem k`, then the marker `<<<stack<<<`; every dump line is 46
characters without a line break followed by one line break. -/
theorem stack_dump_lines (openAppend openWrite : Bool) (crashTime : Nat) (info : rst_info)
    (stack stack_end : Nat) (mem : Nat → Nat) (hopen : (openAppend || openWrite) = true)
    (h1 : stack ≤ stack_end) (h2 : stack_end < 4294967296)
    (h3 : stack_end - stack ≤ 65520) :
    (∀ fuel : Nat, (stack_end - stack + 15) / 16 < fuel →
      custom_crash_callback openAppend openWrite crashTime info stack stack_end mem fuel =
        some (headerText crashTime info ++ registerText info ++
          ((List.range ((stack_end - stack + 15) / 16)).map (dumpLine stack mem)).flatten ++
          "<<<stack<<<\n\n".toList)) ∧
    ">>>stack>>>\n".toList <:+ registerText info ∧
    (∀ k : Nat, ∃ body : Str, dumpLine stack mem k = body ++ ['\n'] ∧ body.length = 46 ∧
      '\n' ∉ body) := by
  refine ⟨?_, ?_, ?_⟩
  · intro fuel hfuel
    have hlen : stackLengthOf stack stack_end = stack_end - stack := by
      unfold stackLengthOf
      omega
    have hnot : (!openAppend && !openWrite) = false := by
      cases openAppend <;> cases openWrite <;> simp_all
    have hloop := stackDumpLoop_terminates stack (stack_end - stack) mem h3
      ((stack_end - stack + 15) / 16) 0 fuel (by omega) hfuel
    rw [Nat.mul_zero] at hloop
    unfold custom_crash_callback
    rw [hnot, hlen, hloop, List.range_eq_range']
    simp
  · refine ⟨"epc1=0x".toList ++ fmt_08x info.epc1 ++ " epc2=0x".toList ++ fmt_08x info.epc2 ++
      " epc3=0x".toList ++ fmt_08x info.epc3 ++ " excvaddr=0x".toList ++
      fmt_08x info.excvaddr ++ " depc=0x".toList ++ fmt_08x info.depc ++ "\n".toList, ?_⟩
    simp [registerText, List.append_assoc]
  · intro k
    refine ⟨hexDigits 8 (stack + 16 * k) ++ ": ".toList ++
      hexDigits 8 (mem ((stack + 16 * k) % 4294967296)) ++ " ".toList ++
      hexDigits 8 (mem ((stack + 16 * k + 4) % 4294967296)) ++ " ".toList ++
      hexDigits 8 (mem ((stack + 16 * k + 8) % 4294967296)) ++ " ".toList ++
      hexDigits 8 (mem ((stack + 16 * k + 12) % 4294967296)) ++ " ".toList, rfl, ?_, ?_⟩
    · simp [hexDigits_length]
    · simp only [List.mem_append, not_or]
      refine ⟨⟨⟨⟨⟨⟨⟨⟨⟨hexDigits_no_newline 8 _, by decide⟩, hexDigits_no_newline 8 _⟩,
        by decide⟩, hexDigits_no_newline 8 _⟩, by decide⟩, hexDigits_no_newline 8 _⟩,
        by decide⟩, hexDigits_no_newline 8 _⟩, by decide⟩

/-- Witness of C6: the 16-byte range `0x3ffffff0..0x40000000` gives exactly one line. -/
theorem stack_dump_lines_witness :
    (0x40000000 - 0x3ffffff0 + 15) / 16 = 1 ∧
    custom_crash_callback true false 1234 ⟨2, 28, 0x40201234, 0, 0, 0xdeadbeef, 0⟩
      0x3ffffff0 0x40000000 addressMemory 2 =
      some (headerText 1234 ⟨2, 28, 0x40201234, 0, 0, 0xdeadbeef, 0⟩ ++
        registerText ⟨2, 28, 0x40201234, 0, 0, 0xdeadbeef, 0⟩ ++
        ((List.range ((0x40000000 - 0x3ffffff0 + 15) / 16)).map
          (dumpLine 0x3ffffff0 addressMemory)).flatten ++
        "<<<stack<<<\n\n".toList) ∧
    dumpLine 0x3ffffff0 addressMemory 0 =
      "3ffffff0: 3ffffff0 3ffffff4 3ffffff8 3ffffffc \n".toList :=
  ⟨by decide,
   (stack_dump_lines true false 1234 ⟨2, 28, 0x40201234, 0, 0, 0xdeadbeef, 0⟩
      0x3ffffff0 0x40000000 addressMemory (by decide) (by decide) (by decide)
      (by decide)).1 2 (by decide),
   by decide⟩

/-- C6 refuted as stated: for the range `0x3fff0000..0x40000000` of 65536 bytes, whose
16-bit length is 0, the callback writes no dump line between the markers, where
`ceil(65536 / 16)` is 4096. -/
theorem long_range_dumps_nothing :
    (0x3fff0000 : Nat) ≤ 0x40000000 ∧
    (0x40000000 - 0x3fff0000 + 15) / 16 = 4096 ∧
    stackLengthOf 0x3fff0000 0x40000000 = 0 ∧
    custom_crash_callback true false 1234 ⟨2, 28, 0x40201234, 0, 0, 0xdeadbeef, 0⟩
      0x3fff0000 0x40000000 addressMemory 1 =
      some ("Crashed at 1234 ms\nRestart reason: 2\nException cause: 28\n".toList ++
        "epc1=0x40201234 epc2=0x00000000 epc3=0x00000000 excvaddr=0xdeadbeef ".toList ++
        "depc=0x00000000\n>>>stack>>>\n".toList ++ "<<<stack<<<\n\n".toList) := by
  refine ⟨by decide, by decide, by decide, ?_⟩
  rfl

/-! ## The formatting buffer -/

theorem stackLine_eq_fields (stack : Nat) (mem : Nat → Nat) (i : Nat) :
    stackLine stack mem i =
      stackAddress stack i ++ stackWord stack mem i 0 ++ stackWord stack mem i 1 ++
        stackWord stack mem i 2 ++ stackWord stack mem i 3 ++ "\n".toList := rfl

theorem decimal_length_le (n : Nat) (h : n < 10 ^ 10) : (decimal n).length ≤ 10 :=
  Nat.toDigitsCore_length 10 (by norm_num) (n + 1) n 10 h (by norm_num)

/-- The conversion `%d` of a 32-bit argument prints at most 11 characters. -/
theorem fmt_d_length (v : Nat) : (fmt_d v).length ≤ 11 := by
  unfold fmt_d
  split
  · have := decimal_length_le (v % 4294967296) (by norm_num; omega)
    omega
  · have := decimal_length_le (4294967296 - v % 4294967296) (by norm_num; omega)
    simp only [List.length_cons]
    omega

/-- The conversion `%08x` of a 32-bit argument prints exactly 8 characters. -/
theorem fmt_08x_length (v : Nat) : (fmt_08x v).length = 8 := by
  rw [fmt_08x_eq, hexDigits_length]

/-- The header has at most 83 characters. -/
theorem headerText_length (crashTime : Nat) (info : rst_info) :
    (headerText crashTime info).length ≤ 83 := by
  have h1 := fmt_d_length crashTime
  have h2 := fmt_d_length info.reason
  have h3 := fmt_d_length info.exccause
  have l1 : ("Crashed at ".toList).length = 11 := rfl
  have l2 : (" ms\nRestart reason: ".toList).length = 20 := rfl
  have l3 : ("\nException cause: ".toList).length = 18 := rfl
  have l4 : ("\n".toList).length = 1 := rfl
  simp only [headerText, List.length_append, l1, l2, l3, l4]
  omega

/-- The register line with the start marker has exactly 96 characters. -/
theorem registerText_length (info : rst_info) : (registerText info).length = 96 := by
  have l1 : ("epc1=0x".toList).length = 7 := rfl
  have l2 : (" epc2=0x".toList).length = 8 := rfl
  have l3 : (" epc3=0x".toList).length = 8 := rfl
  have l4 : (" excvaddr=0x".toList).length = 12 := rfl
  have l5 : (" depc=0x".toList).length = 8 := rfl
  have l6 : ("\n>>>stack>>>\n".toList).length = 13 := rfl
  simp only [registerText, List.length_append, fmt_08x_length, l1, l2, l3, l4, l5, l6]

/-- C11: for every crash time, fault descriptor, stack address, line offset, word index
and memory, each string the callback formats into `tmpBuffer` (the header, the register
line with the start marker, an address field, a word field) has at most 99 characters,
so it fits the 100-byte buffer together with its terminating NUL. -/
theorem tmpBuffer_fits (crashTime : Nat) (info : rst_info) (stack i j : Nat)
    (mem : Nat → Nat) :
    (headerText crashTime info).length + 1 ≤ tmpBufferSize ∧
    (registerText info).length + 1 ≤ tmpBufferSize ∧
    (stackAddress stack i).length + 1 ≤ tmpBufferSize ∧
    (stackWord stack mem i j).length + 1 ≤ tmpBufferSize := by
  have h := headerText_length crashTime info
  have r := registerText_length info
  have l1 : (": ".toList).length = 2 := rfl
  have l2 : (" ".toList).length = 1 := rfl
  refine ⟨?_, ?_, ?_, ?_⟩
  · unfold tmpBufferSize; omega
  · unfold tmpBufferSize; omega
  · simp only [stackAddress, List.length_append, fmt_08x_length, l1, tmpBufferSize]
    norm_num
  · simp only [stackWord, List.length_append, fmt_08x_length, l2, tmpBufferSize]
    norm_num

/-- The bound 83 on the header is reached: crash time, restart reason and exception cause
all `0x80000000` print as `-2147483648`. -/
theorem headerText_length_attained :
    (headerText 2147483648 ⟨2147483648, 2147483648, 0, 0, 0, 0, 0⟩).length = 83 := by
  decide

end EspSaveCrash
